import Mathlib

/-!
Verification of the deterministic CIDR subnet partitioner specified for this
repository, together with the Vcn network builder in
`src/blocks/vcn/network.py` that consumes it.

The partitioner itself (`Helper.calculate_subnets` from `core.helper`) is not
part of the reviewed sources; it is modelled here from the specification's
algorithm (spec section 4.1).  The Vcn subnet-wiring definitions further below
are translated from `src/blocks/vcn/network.py`.
-/

/-- An IPv4 CIDR block: a 32-bit network address together with a prefix
length.  Addresses are modelled as natural numbers below `2 ^ 32`. -/
structure AddressBlock where
  addr : Nat
  plen : Nat
deriving DecidableEq, Repr

/-- Modelled from the spec: the error taxonomy of the missing partitioner
`Helper.calculate_subnets` (spec section 7): `InvalidInputError` for a
malformed base block or non-positive count, `CapacityError` when the base
block is too small to split into the requested number of pieces. -/
inductive PartitionError where
  | invalidInput
  | capacityError
deriving DecidableEq, Repr

/-- Split a character list on a separator, like Python `str.split(sep)`:
`splitSep '.' "10.0".data = [['1','0'], ['0']]`. -/
def splitSep (sep : Char) : List Char → List (List Char)
  | [] => [[]]
  | c :: cs =>
    let r := splitSep sep cs
    if c = sep then [] :: r
    else
      match r with
      | [] => [[c]]
      | g :: gs => (c :: g) :: gs

/-- Accumulator loop for decimal parsing: fails on any non-digit. -/
def digitsToNat : List Char → Nat → Option Nat
  | [], acc => some acc
  | c :: cs, acc =>
    if '0' ≤ c ∧ c ≤ '9' then digitsToNat cs (acc * 10 + (c.toNat - 48))
    else none

/-- Parse a non-empty all-digit character list as a decimal natural. -/
def parseDecimal (cs : List Char) : Option Nat :=
  match cs with
  | [] => none
  | _ :: _ => digitsToNat cs 0

/-- Modelled from the spec: parsing of the base CIDR string accepted by the
missing partitioner `Helper.calculate_subnets`.  A well-formed block is
`"a.b.c.d/p"` with four decimal octets `≤ 255`, a prefix length `p ≤ 32`, and
a network address that is the canonical (masked) base for its prefix length
(spec section 3, AddressBlock invariants).  Returns `(address, prefixLength)`
or `none` when the string is malformed. -/
def parseCidr (s : String) : Option (Nat × Nat) :=
  match splitSep '/' s.data with
  | [ipPart, lenPart] =>
    match splitSep '.' ipPart with
    | [w, x, y, z] =>
      match parseDecimal w, parseDecimal x, parseDecimal y, parseDecimal z,
            parseDecimal lenPart with
      | some a, some b, some c, some d, some p =>
        if a ≤ 255 ∧ b ≤ 255 ∧ c ≤ 255 ∧ d ≤ 255 ∧ p ≤ 32 then
          let addr := ((a * 256 + b) * 256 + c) * 256 + d
          if addr % 2 ^ (32 - p) = 0 then some (addr, p) else none
        else none
      | _, _, _, _, _ => none
    | _ => none
  | _ => none

/-- Fuel-driven ceiling base-2 logarithm: halves (rounding up) until the
argument drops to `1`.  The fuel argument only forces termination. -/
def ceilLog2Aux : Nat → Nat → Nat
  | 0, _ => 0
  | fuel + 1, n => if n ≤ 1 then 0 else ceilLog2Aux fuel ((n + 1) / 2) + 1

/-- Modelled from the spec: the smallest `k` with `2 ^ k ≥ n` (spec section
4.1 step 1), computed by the missing partitioner to size child blocks. -/
def ceilLog2 (n : Nat) : Nat := ceilLog2Aux n n

/-- Modelled from the spec: the missing partitioner
`Helper.calculate_subnets(base_cidr, count)` (spec sections 4.1 and 6).
Parses the base block, rejects malformed input and non-positive counts with
`invalidInput`; computes the child prefix length as base prefix plus the
smallest `k` with `2 ^ k ≥ count` and rejects it with `capacityError` when it
exceeds the IPv4 maximum of 32; otherwise enumerates the first `count` child
blocks in ascending address order, stepping by the child block size. -/
def partition (baseCidr : String) (count : Int) : Except PartitionError (List AddressBlock) :=
  match parseCidr baseCidr with
  | none => .error .invalidInput
  | some (a, p) =>
    if count ≤ 0 then .error .invalidInput
    else
      let k := ceilLog2 count.toNat
      if 32 < p + k then .error .capacityError
      else
        let step := 2 ^ (32 - (p + k))
        .ok ((List.range count.toNat).map fun i => ⟨a + i * step, p + k⟩)

instance {ε α : Type} [DecidableEq ε] [DecidableEq α] : DecidableEq (Except ε α) := fun x y =>
  match x, y with
  | .error a, .error b =>
    if h : a = b then .isTrue (h ▸ rfl) else .isFalse (fun hh => h (Except.error.inj hh))
  | .ok a, .ok b =>
    if h : a = b then .isTrue (h ▸ rfl) else .isFalse (fun hh => h (Except.ok.inj hh))
  | .error _, .ok _ => .isFalse (fun hh => Except.noConfusion hh)
  | .ok _, .error _ => .isFalse (fun hh => Except.noConfusion hh)

/-- Membership of a 32-bit address in the range covered by a block. -/
def inBlock (b : AddressBlock) (x : Nat) : Prop :=
  b.addr ≤ x ∧ x < b.addr + 2 ^ (32 - b.plen)

instance (b : AddressBlock) (x : Nat) : Decidable (inBlock b x) := by
  unfold inBlock; infer_instance

/-- `ceilLog2Aux` returns an exponent large enough: `n ≤ 2 ^ ceilLog2Aux fuel n`
whenever the fuel covers `n`. -/
theorem le_pow_ceilLog2Aux : ∀ fuel n : Nat, n ≤ fuel → n ≤ 2 ^ ceilLog2Aux fuel n := by
  intro fuel
  induction fuel with
  | zero =>
    intro n hn
    have h0 : n = 0 := by omega
    subst h0
    simp [ceilLog2Aux]
  | succ fuel ih =>
    intro n hn
    unfold ceilLog2Aux
    split
    · simpa using (by omega : n ≤ 1)
    · rename_i hgt
      have h2 : 2 ≤ n := by omega
      have hrec : (n + 1) / 2 ≤ fuel := by omega
      have hind := ih ((n + 1) / 2) hrec
      rw [pow_succ]
      omega

/-- `ceilLog2Aux` is minimal: any exponent `j` with `n ≤ 2 ^ j` is at least
`ceilLog2Aux fuel n`. -/
theorem ceilLog2Aux_min : ∀ fuel n j : Nat, n ≤ fuel → n ≤ 2 ^ j → ceilLog2Aux fuel n ≤ j := by
  intro fuel
  induction fuel with
  | zero => intro n j _ _; simp [ceilLog2Aux]
  | succ fuel ih =>
    intro n j hn hj
    unfold ceilLog2Aux
    split
    · omega
    · rename_i hgt
      have h2 : 2 ≤ n := by omega
      cases j with
      | zero => rw [pow_zero] at hj; omega
      | succ j =>
        have hrec : (n + 1) / 2 ≤ fuel := by omega
        have hj2 : (n + 1) / 2 ≤ 2 ^ j := by
          rw [pow_succ] at hj
          omega
        have := ih ((n + 1) / 2) j hrec hj2
        omega

/-- `ceilLog2 n` satisfies `n ≤ 2 ^ ceilLog2 n`. -/
theorem le_pow_ceilLog2 (n : Nat) : n ≤ 2 ^ ceilLog2 n :=
  le_pow_ceilLog2Aux n n le_rfl

/-- `ceilLog2 n` is the smallest exponent whose power of two reaches `n`. -/
theorem ceilLog2_le (n j : Nat) (h : n ≤ 2 ^ j) : ceilLog2 n ≤ j :=
  ceilLog2Aux_min n n j le_rfl h

/-- Unfolding equation of `partition` on a well-formed base block. -/
theorem partition_some (a p : Nat) (s : String) (c : Int) (hp : parseCidr s = some (a, p)) :
    partition s c =
      if c ≤ 0 then .error .invalidInput
      else if 32 < p + ceilLog2 c.toNat then .error .capacityError
      else .ok ((List.range c.toNat).map fun i =>
        ⟨a + i * 2 ^ (32 - (p + ceilLog2 c.toNat)), p + ceilLog2 c.toNat⟩) := by
  unfold partition
  rw [hp]

/-- Unfolding equation of `partition` on a malformed base block. -/
theorem partition_none (s : String) (c : Int) (hp : parseCidr s = none) :
    partition s c = .error .invalidInput := by
  unfold partition
  rw [hp]

/-- Inversion principle: a successful `partition` call exposes the parsed base,
positive count, in-capacity child prefix length, and the arithmetic shape of
the returned list. -/
theorem partition_ok_shape (s : String) (c : Int) (bs : List AddressBlock)
    (h : partition s c = .ok bs) :
    ∃ a p, parseCidr s = some (a, p) ∧ 0 < c ∧
      p + ceilLog2 c.toNat ≤ 32 ∧
      bs = (List.range c.toNat).map fun i =>
        ⟨a + i * 2 ^ (32 - (p + ceilLog2 c.toNat)), p + ceilLog2 c.toNat⟩ := by
  cases hp : parseCidr s with
  | none =>
    rw [partition_none s c hp] at h
    exact Except.noConfusion h
  | some ap =>
    obtain ⟨a, p⟩ := ap
    rw [partition_some a p s c hp] at h
    by_cases h0 : c ≤ 0
    · rw [if_pos h0] at h
      exact Except.noConfusion h
    · rw [if_neg h0] at h
      by_cases hcap : 32 < p + ceilLog2 c.toNat
      · rw [if_pos hcap] at h
        exact Except.noConfusion h
      · rw [if_neg hcap] at h
        exact ⟨a, p, rfl, by omega, by omega, (Except.ok.inj h).symm⟩

/-- Subnet configuration, translated from the `SubnetConfig` dataclass in
`src/blocks/vcn/network.py` (cidr, is_public, dns_label).  The cidr is held
as a structured block rather than its string rendering. -/
structure SubnetConfig where
  cidr : AddressBlock
  is_public : Bool
  dns_label : String
deriving DecidableEq, Repr

/-- The subnet resource attributes declared by `Vcn._create_subnet`
(`src/blocks/vcn/network.py`, lines 172-200) that this development reasons
about.  The naming helpers from the out-of-scope `core` module
(`create_resource_name`, `create_dns_label`) are identity-modelled: the raw
name and label are stored. -/
structure SubnetResource where
  name : String
  cidr_block : AddressBlock
  dns_label : String
  prohibit_public_ip_on_vnic : Bool
  network_type : String
  subnet_group : String
deriving DecidableEq, Repr

/-- Translated from `Vcn._create_subnet`: derives `network_type` from
`config.is_public`, derives the subnet group suffix from whether the dns
label contains an `'a'`, and sets `prohibit_public_ip_on_vnic` to the
negation of `config.is_public`. -/
def create_subnet (subnet_name : String) (config : SubnetConfig) : SubnetResource :=
  let network_type := if config.is_public then "public" else "private"
  let subnet_group :=
    network_type ++ "-" ++ (if config.dns_label.contains 'a' then "a" else "b")
  { name := subnet_name
    cidr_block := config.cidr
    dns_label := config.dns_label
    prohibit_public_ip_on_vnic := !config.is_public
    network_type := network_type
    subnet_group := subnet_group }

/-- Translated from `Vcn._create_subnets`: Python unpacking
`lb_subnet, pub_subnet, pods_subnet, workers_subnet, _, _ = subnet_cidrs`
followed by the literal `subnet_configs` dict.  Unpacking fails (raises)
unless exactly six blocks are supplied, hence the `Option`. -/
def vcnSubnetConfigs : List AddressBlock → Option (List (String × String × SubnetConfig))
  | [lb_subnet, pub_subnet, pods_subnet, workers_subnet, _, _] =>
    some [("pub-a", "public_a", ⟨pub_subnet, true, "puba"⟩),
          ("pub-b", "public_b", ⟨lb_subnet, true, "pubb"⟩),
          ("prv-a", "private_a", ⟨workers_subnet, false, "prva"⟩),
          ("prv-b", "private_b", ⟨pods_subnet, false, "prvb"⟩)]
  | _ => none

/-- The subnet count `Vcn.__init__` passes to the partitioner
(`src/blocks/vcn/network.py`, line 27: `h.calculate_subnets(self.cidr_block, 6)`). -/
def vcnPartitionCount : Int := 6

/-- Translated from `Vcn.__init__` and `Vcn._create_subnets`: the default
base block is `"10.0.0.0/16"` when no `cidr_block` argument is given, the
partitioner is invoked with `vcnPartitionCount`, and the result is unpacked
into the four named subnet configurations.  A partitioner error aborts the
construction (`none`). -/
def vcnSubnets (cidr_block : Option String) : Option (List (String × String × SubnetConfig)) :=
  match partition (cidr_block.getD "10.0.0.0/16") vcnPartitionCount with
  | .ok blocks => vcnSubnetConfigs blocks
  | .error _ => none

/-- The subnet resources `Vcn._create_subnets` declares: one
`_create_subnet` call per config entry, named `sn-<short_name>`. -/
def create_subnets (configs : List (String × String × SubnetConfig)) : List SubnetResource :=
  configs.map fun t => create_subnet ("sn-" ++ t.1) t.2.2

/-- C1: `partition "10.0.0.0/16" 6` returns exactly the six /19 blocks
10.0.0.0/19, 10.0.32.0/19, 10.0.64.0/19, 10.0.96.0/19, 10.0.128.0/19,
10.0.160.0/19 in ascending order, and the child prefix length 19 is the base
prefix 16 plus the increment `k = 3`, which is the smallest `k` with
`2 ^ k ≥ 6` (witnessed by `6 ≤ 2 ^ 3` and `2 ^ 2 < 6`; minimality for all
smaller exponents follows by monotonicity of `2 ^ ·`). -/
theorem partition_ten_sixteen_six_blocks :
    partition "10.0.0.0/16" 6 =
      .ok [⟨167772160, 19⟩, ⟨167780352, 19⟩, ⟨167788544, 19⟩,
           ⟨167796736, 19⟩, ⟨167804928, 19⟩, ⟨167813120, 19⟩] ∧
    ceilLog2 6 = 3 ∧ 6 ≤ 2 ^ 3 ∧ 2 ^ 2 < 6 ∧ 16 + ceilLog2 6 = 19 := by
  decide

/-- C4: a successful `partition` call returns a list whose length equals the
requested count. -/
theorem partition_count (s : String) (c : Int) (bs : List AddressBlock)
    (h : partition s c = .ok bs) : (bs.length : Int) = c := by
  obtain ⟨a, p, _, hc, _, hbs⟩ := partition_ok_shape s c bs h
  subst hbs
  simp only [List.length_map, List.length_range]
  omega

/-- Witness for C4: `partition "10.0.0.0/16" 6` succeeds and the returned
list has length 6. -/
theorem partition_count_witness :
    (([⟨167772160, 19⟩, ⟨167780352, 19⟩, ⟨167788544, 19⟩,
       ⟨167796736, 19⟩, ⟨167804928, 19⟩, ⟨167813120, 19⟩] :
      List AddressBlock).length : Int) = 6 :=
  partition_count "10.0.0.0/16" 6 _ (by decide)

/-- C5: `partition` is a pure function of its two arguments, so two calls
with identical arguments yield identical, identically-ordered results; there
is no randomness and no dependence on prior calls. -/
theorem partition_deterministic :
    ∀ (s : String) (c : Int), partition s c = partition s c :=
  fun _ _ => rfl

/-- C7: for a well-formed base block and positive count, `partition` signals
`capacityError` exactly when the child prefix length (base prefix plus the
smallest `k` with `2 ^ k ≥ count`) exceeds the IPv4 maximum of 32. -/
theorem partition_capacity_iff (s : String) (a p : Nat) (c : Int)
    (hp : parseCidr s = some (a, p)) (hc : 0 < c) :
    partition s c = .error .capacityError ↔ 32 < p + ceilLog2 c.toNat := by
  rw [partition_some a p s c hp, if_neg (by omega)]
  by_cases hcap : 32 < p + ceilLog2 c.toNat
  · rw [if_pos hcap]
    exact iff_of_true rfl hcap
  · rw [if_neg hcap]
    exact iff_of_false (fun hh => Except.noConfusion hh) hcap

/-- Witness for C7, at the spec's capacity boundary: `"10.0.0.0/31"` with
count 4 exceeds capacity (`31 + 2 > 32`) and signals `capacityError`, while
`"10.0.0.0/29"` with count 4 exactly fits and yields four /31 blocks. -/
theorem partition_capacity_iff_witness :
    partition "10.0.0.0/31" 4 = .error .capacityError ∧
    partition "10.0.0.0/29" 4 =
      .ok [⟨167772160, 31⟩, ⟨167772162, 31⟩, ⟨167772164, 31⟩, ⟨167772166, 31⟩] :=
  ⟨(partition_capacity_iff "10.0.0.0/31" 167772160 31 4 (by decide) (by decide)).mpr
      (by decide),
    by decide⟩

/-- C8: `partition` signals `invalidInput` exactly when the base block string
is malformed (fails to parse) or the count is non-positive; the `Except`
error constructor carries no partial or default result. -/
theorem partition_invalid_iff (s : String) (c : Int) :
    partition s c = .error .invalidInput ↔ (parseCidr s = none ∨ c ≤ 0) := by
  cases hp : parseCidr s with
  | none =>
    rw [partition_none s c hp]
    exact iff_of_true rfl (Or.inl rfl)
  | some ap =>
    obtain ⟨a, p⟩ := ap
    rw [partition_some a p s c hp]
    by_cases h0 : c ≤ 0
    · rw [if_pos h0]
      exact iff_of_true rfl (Or.inr h0)
    · rw [if_neg h0]
      constructor
      · intro hh
        by_cases hcap : 32 < p + ceilLog2 c.toNat
        · rw [if_pos hcap] at hh
          exact absurd (Except.error.inj hh) (fun hh2 => PartitionError.noConfusion hh2)
        · rw [if_neg hcap] at hh
          exact Except.noConfusion hh
      · intro hh
        rcases hh with hh | hh
        · exact Option.noConfusion hh
        · exact absurd hh h0

/-- Arithmetic core of non-overlap: two equal-sized aligned child blocks at
distinct indices cover disjoint address ranges. -/
theorem step_blocks_disjoint (a t cp i j x : Nat) (hij : i < j)
    (h1 : inBlock ⟨a + i * t, cp⟩ x) (h2 : inBlock ⟨a + j * t, cp⟩ x)
    (ht : 2 ^ (32 - cp) = t) : False := by
  obtain ⟨hi1, hi2⟩ := h1
  obtain ⟨hj1, hj2⟩ := h2
  simp only at hi1 hi2 hj1 hj2
  rw [ht] at hi2 hj2
  have hmul : (i + 1) * t ≤ j * t := Nat.mul_le_mul_right t (by omega)
  rw [Nat.succ_mul] at hmul
  have hstep : a + i * t + t ≤ a + j * t := by
    rw [Nat.add_assoc]
    exact Nat.add_le_add_left hmul a
  exact Nat.lt_irrefl x (lt_of_lt_of_le hi2 (le_trans hstep hj1))

/-- C2: the blocks returned by a successful `partition` call are pairwise
non-overlapping — no address lies in two distinct returned blocks. -/
theorem partition_nonoverlap (s : String) (c : Int) (bs : List AddressBlock)
    (h : partition s c = .ok bs) (i j : Nat) (hi : i < bs.length) (hj : j < bs.length)
    (hij : i ≠ j) (x : Nat) :
    ¬ (inBlock (bs.get ⟨i, hi⟩) x ∧ inBlock (bs.get ⟨j, hj⟩) x) := by
  obtain ⟨a, p, _, hc, hcap, hbs⟩ := partition_ok_shape s c bs h
  subst hbs
  intro ⟨hbi, hbj⟩
  have hi' : i < c.toNat := by simpa using hi
  have hj' : j < c.toNat := by simpa using hj
  have ei : ((List.range c.toNat).map fun i =>
      (⟨a + i * 2 ^ (32 - (p + ceilLog2 c.toNat)), p + ceilLog2 c.toNat⟩ :
        AddressBlock)).get ⟨i, hi⟩ =
      ⟨a + i * 2 ^ (32 - (p + ceilLog2 c.toNat)), p + ceilLog2 c.toNat⟩ := by
    simp [List.get_eq_getElem]
  have ej : ((List.range c.toNat).map fun i =>
      (⟨a + i * 2 ^ (32 - (p + ceilLog2 c.toNat)), p + ceilLog2 c.toNat⟩ :
        AddressBlock)).get ⟨j, hj⟩ =
      ⟨a + j * 2 ^ (32 - (p + ceilLog2 c.toNat)), p + ceilLog2 c.toNat⟩ := by
    simp [List.get_eq_getElem]
  rw [ei] at hbi
  rw [ej] at hbj
  rcases Nat.lt_or_ge i j with hlt | hge
  · exact step_blocks_disjoint a _ _ i j x hlt hbi hbj rfl
  · have hlt' : j < i := by omega
    exact step_blocks_disjoint a _ _ j i x hlt' hbj hbi rfl

/-- Witness for C2: in `partition "10.0.0.0/16" 6`, the address 10.0.0.0
(numerically 167772160) does not lie in both the first and the second block. -/
theorem partition_nonoverlap_witness :
    ¬ (inBlock ⟨167772160, 19⟩ 167772160 ∧ inBlock ⟨167780352, 19⟩ 167772160) := by
  have h := partition_nonoverlap "10.0.0.0/16" 6
    [⟨167772160, 19⟩, ⟨167780352, 19⟩, ⟨167788544, 19⟩,
     ⟨167796736, 19⟩, ⟨167804928, 19⟩, ⟨167813120, 19⟩]
    (by decide) 0 1 (by decide) (by decide) (by decide) 167772160
  exact h

/-- C3: every block returned by a successful `partition` call covers only
addresses that lie inside the base block. -/
theorem partition_containment (s : String) (a p : Nat) (c : Int)
    (bs : List AddressBlock) (hp : parseCidr s = some (a, p))
    (h : partition s c = .ok bs) :
    ∀ b ∈ bs, ∀ x : Nat, inBlock b x → inBlock ⟨a, p⟩ x := by
  obtain ⟨a', p', hp', hc, hcap, hbs⟩ := partition_ok_shape s c bs h
  rw [hp] at hp'
  obtain ⟨rfl, rfl⟩ : a = a' ∧ p = p' := by
    have := Option.some.inj hp'
    exact ⟨congrArg Prod.fst this, congrArg Prod.snd this⟩
  subst hbs
  intro b hb x hx
  rw [List.mem_map] at hb
  obtain ⟨i, hi, rfl⟩ := hb
  rw [List.mem_range] at hi
  obtain ⟨hx1, hx2⟩ := hx
  simp only at hx1 hx2
  constructor
  · exact le_trans (Nat.le_add_right a _) hx1
  · have hcnt : c.toNat ≤ 2 ^ ceilLog2 c.toNat := le_pow_ceilLog2 c.toNat
    have h1 : (i + 1) * 2 ^ (32 - (p + ceilLog2 c.toNat)) ≤
        2 ^ ceilLog2 c.toNat * 2 ^ (32 - (p + ceilLog2 c.toNat)) :=
      Nat.mul_le_mul_right _ (by omega)
    have h2 : 2 ^ ceilLog2 c.toNat * 2 ^ (32 - (p + ceilLog2 c.toNat)) = 2 ^ (32 - p) := by
      rw [← pow_add]
      congr 1
      omega
    have h3 : x < a + (i + 1) * 2 ^ (32 - (p + ceilLog2 c.toNat)) := by
      rw [Nat.succ_mul, ← Nat.add_assoc]
      exact hx2
    have h4 : a + (i + 1) * 2 ^ (32 - (p + ceilLog2 c.toNat)) ≤ a + 2 ^ (32 - p) := by
      rw [← h2]
      exact Nat.add_le_add_left h1 a
    exact lt_of_lt_of_le h3 h4

/-- Witness for C3: the address 10.0.160.0 (numerically 167813120), which
lies in the last block of `partition "10.0.0.0/16" 6`, lies in the base
block 10.0.0.0/16. -/
theorem partition_containment_witness : inBlock ⟨167772160, 16⟩ 167813120 :=
  partition_containment "10.0.0.0/16" 167772160 16 6
    [⟨167772160, 19⟩, ⟨167780352, 19⟩, ⟨167788544, 19⟩,
     ⟨167796736, 19⟩, ⟨167804928, 19⟩, ⟨167813120, 19⟩]
    (by decide) (by decide) ⟨167813120, 19⟩ (by decide) 167813120 (by decide)

/-- Counterexample to C6: with base `"10.0.0.0/16"`, both counts 1 and 2 are
within capacity, yet `partition` at count 1 returns the whole /16 block while
at count 2 it returns /17 halves, so the first returned block changes when
the count grows across a power of two: the child blocks are re-sized. -/
theorem partition_growth_unstable_cex :
    partition "10.0.0.0/16" 1 = .ok [⟨167772160, 16⟩] ∧
    partition "10.0.0.0/16" 2 = .ok [⟨167772160, 17⟩, ⟨167804928, 17⟩] ∧
    ¬ ([(⟨167772160, 16⟩ : AddressBlock)] =
        ([⟨167772160, 17⟩, ⟨167804928, 17⟩] : List AddressBlock).take 1) := by
  decide

/-- C6 as amended: ordering is stable under growth of the count whenever the
grown count requires the same child prefix increment, i.e. when
`ceilLog2` of the two counts agrees (no power-of-two boundary is crossed):
then `partition base n` is exactly the first `n` elements of
`partition base (n + 1)`. -/
theorem partition_growth_stable_same_k (s : String) (n : Int)
    (bs1 bs2 : List AddressBlock)
    (hk : ceilLog2 n.toNat = ceilLog2 (n + 1).toNat)
    (h1 : partition s n = .ok bs1) (h2 : partition s (n + 1) = .ok bs2) :
    bs1 = bs2.take n.toNat := by
  obtain ⟨a, p, hp, hc, hcap, e1⟩ := partition_ok_shape s n bs1 h1
  obtain ⟨a', p', hp', hc', hcap', e2⟩ := partition_ok_shape s (n + 1) bs2 h2
  rw [hp] at hp'
  obtain ⟨rfl, rfl⟩ : a = a' ∧ p = p' := by
    have := Option.some.inj hp'
    exact ⟨congrArg Prod.fst this, congrArg Prod.snd this⟩
  subst e1 e2
  rw [← hk]
  have hn1 : (n + 1).toNat = n.toNat + 1 := by omega
  rw [hn1, ← List.map_take, List.take_range, Nat.min_eq_left (Nat.le_succ _)]

/-- Witness for the amended C6: growing the count from 5 to 6 (same child
prefix length /19) keeps the first five blocks of `partition "10.0.0.0/16"`
unchanged. -/
theorem partition_growth_stable_witness :
    ([⟨167772160, 19⟩, ⟨167780352, 19⟩, ⟨167788544, 19⟩,
      ⟨167796736, 19⟩, ⟨167804928, 19⟩] : List AddressBlock) =
      ([⟨167772160, 19⟩, ⟨167780352, 19⟩, ⟨167788544, 19⟩,
        ⟨167796736, 19⟩, ⟨167804928, 19⟩, ⟨167813120, 19⟩] :
        List AddressBlock).take (5 : Int).toNat :=
  partition_growth_stable_same_k "10.0.0.0/16" 5 _ _ (by decide) (by decide) (by decide)

/-- Blocks produced at distinct indices of the same partition differ:
the start addresses `a + i * t` determine the index when `t > 0`. -/
theorem addr_index_inj (a t i j cp cp' : Nat) (ht : 0 < t)
    (h : (⟨a + i * t, cp⟩ : AddressBlock) = ⟨a + j * t, cp'⟩) : i = j := by
  have h1 : a + i * t = a + j * t := congrArg AddressBlock.addr h
  have h2 : i * t = j * t := by omega
  exact Nat.eq_of_mul_eq_mul_right ht h2

/-- C9: the Vcn builder always asks the partitioner for exactly 6 blocks,
and consumes only the first four as subnet CIDRs — index 0 as the
load-balancer subnet (`public_b`), index 1 as the public subnet (`public_a`),
index 2 as the pods subnet (`private_b`), index 3 as the workers subnet
(`private_a`); the blocks at indices 4 and 5 appear in no declared subnet
configuration. -/
theorem vcn_requests_six_consumes_four (cb : Option String)
    (b0 b1 b2 b3 b4 b5 : AddressBlock)
    (h : partition (cb.getD "10.0.0.0/16") vcnPartitionCount = .ok [b0, b1, b2, b3, b4, b5]) :
    vcnPartitionCount = 6 ∧
    vcnSubnets cb = some [("pub-a", "public_a", ⟨b1, true, "puba"⟩),
                          ("pub-b", "public_b", ⟨b0, true, "pubb"⟩),
                          ("prv-a", "private_a", ⟨b3, false, "prva"⟩),
                          ("prv-b", "private_b", ⟨b2, false, "prvb"⟩)] ∧
    ((vcnSubnets cb).getD []).map (fun t => t.2.2.cidr) = [b1, b0, b3, b2] ∧
    b4 ∉ [b1, b0, b3, b2] ∧ b5 ∉ [b1, b0, b3, b2] := by
  have hsub : vcnSubnets cb =
      some [("pub-a", "public_a", ⟨b1, true, "puba"⟩),
            ("pub-b", "public_b", ⟨b0, true, "pubb"⟩),
            ("prv-a", "private_a", ⟨b3, false, "prva"⟩),
            ("prv-b", "private_b", ⟨b2, false, "prvb"⟩)] := by
    unfold vcnSubnets
    rw [h]
    rfl
  obtain ⟨a, p, hp, hc, hcap, hbs⟩ := partition_ok_shape _ _ _ h
  simp only [vcnPartitionCount] at hbs
  rw [show Int.toNat 6 = 6 from rfl] at hbs
  rw [show List.range 6 = [0, 1, 2, 3, 4, 5] from rfl] at hbs
  simp only [List.map_cons, List.map_nil, List.cons.injEq, and_true] at hbs
  obtain ⟨hb0, hb1, hb2, hb3, hb4, hb5⟩ := hbs
  subst hb0
  subst hb1
  subst hb2
  subst hb3
  subst hb4
  subst hb5
  have ht : 0 < 2 ^ (32 - (p + ceilLog2 6)) :=
    pow_pos (by norm_num) _
  refine ⟨rfl, hsub, by rw [hsub]; rfl, ?_, ?_⟩
  · intro hm
    simp only [List.mem_cons, List.not_mem_nil, or_false] at hm
    rcases hm with hh | hh | hh | hh <;>
      exact absurd (addr_index_inj _ _ _ _ _ _ ht hh) (by omega)
  · intro hm
    simp only [List.mem_cons, List.not_mem_nil, or_false] at hm
    rcases hm with hh | hh | hh | hh <;>
      exact absurd (addr_index_inj _ _ _ _ _ _ ht hh) (by omega)

/-- Witness for C9: with the default base block, the Vcn declares exactly
the four subnet configurations built from blocks 1, 0, 3 and 2 of the
six-way partition of 10.0.0.0/16. -/
theorem vcn_requests_six_consumes_four_witness :
    vcnSubnets none =
      some [("pub-a", "public_a", ⟨⟨167780352, 19⟩, true, "puba"⟩),
            ("pub-b", "public_b", ⟨⟨167772160, 19⟩, true, "pubb"⟩),
            ("prv-a", "private_a", ⟨⟨167796736, 19⟩, false, "prva"⟩),
            ("prv-b", "private_b", ⟨⟨167788544, 19⟩, false, "prvb"⟩)] :=
  (vcn_requests_six_consumes_four none ⟨167772160, 19⟩ ⟨167780352, 19⟩
    ⟨167788544, 19⟩ ⟨167796736, 19⟩ ⟨167804928, 19⟩ ⟨167813120, 19⟩ (by decide)).2.1

/-- C10: every subnet declared through `Vcn._create_subnet` prohibits public
IPs on VNICs exactly when its configuration is not public, and carries the
derived network type `"public"` exactly when its configuration is public. -/
theorem subnet_public_flag_consistency :
    ∀ (subnet_name : String) (config : SubnetConfig),
      (create_subnet subnet_name config).prohibit_public_ip_on_vnic = !config.is_public ∧
      ((create_subnet subnet_name config).network_type = "public" ↔
        config.is_public = true) := by
  intro sn config
  obtain ⟨cd, pub, dns⟩ := config
  cases pub <;> simp [create_subnet]
